import Mathlib

/-!
Shallow embedding of the gencat segmentation module
(`src/segmenter/gencat_segmenter.py`) and proofs about it.

Texts are modelled as `List Char` internally (`String` at the record
boundaries), machine floats for word timestamps as `ℚ` (the code only
parses, compares and subtracts them), Python `dict.get` on optional
record fields as `Option`, and the external effects (ffmpeg invocation,
alignment-JSON dump, CSV append) as explicitly recorded events.
-/

namespace Gencat

/-! ### Generic character / string helpers -/

/-- Python `str.lower`, restricted to ASCII case folding. -/
def lowerStr (s : String) : String := ⟨s.data.map Char.toLower⟩

/-- Python `s.endswith(suf)`. -/
def endsWithStr (s suf : String) : Bool := suf.data.isSuffixOf s.data

/-- Python `s.startswith(pre)`. -/
def startsWithStr (s pre : String) : Bool := pre.data.isPrefixOf s.data

/-- Substring search: does `needle` occur contiguously in the list? -/
def listContains (needle : List Char) : List Char → Bool
  | [] => needle.isEmpty
  | c :: rest => needle.isPrefixOf (c :: rest) || listContains needle rest

/-- Python `sub in s` (substring containment). -/
def containsStr (s sub : String) : Bool := listContains sub.data s.data

/-- `dropWhile` from the right, used by Python `str.strip` / `str.rstrip`. -/
def stripR (s : List Char) : List Char := (s.reverse.dropWhile Char.isWhitespace).reverse

/-- `lstrip`: drop leading whitespace. -/
def stripL (s : List Char) : List Char := s.dropWhile Char.isWhitespace

/-- Python `str.strip()`: drop leading and trailing whitespace. -/
def pyStrip (s : List Char) : List Char := stripR (stripL s)

/-- Worker for `collapseWs`; the flag records whether the previous
character was whitespace (in which case further whitespace is dropped). -/
def collapseWsAux : Bool → List Char → List Char
  | _, [] => []
  | prevWs, c :: rest =>
    if c.isWhitespace then
      if prevWs then collapseWsAux true rest
      else ' ' :: collapseWsAux true rest
    else c :: collapseWsAux false rest

/-- `re.sub(r'\s+', ' ', s)`: every maximal whitespace run becomes one space. -/
def collapseWs (s : List Char) : List Char := collapseWsAux false s

/-! ### Whitespace tokenization

`wsTokens` splits a character list into its maximal whitespace-free
tokens.  Two texts are "equal modulo whitespace normalization" exactly
when their token lists coincide; this is the relation used to state the
concatenation claim about the segmenter. -/

/-- Worker: `cur` is the (reversed) token being accumulated. -/
def wsTokensAux : List Char → List Char → List (List Char)
  | cur, [] => if cur.isEmpty then [] else [cur.reverse]
  | cur, c :: rest =>
    if c.isWhitespace then
      if cur.isEmpty then wsTokensAux [] rest
      else cur.reverse :: wsTokensAux [] rest
    else wsTokensAux (c :: cur) rest

/-- The maximal whitespace-free tokens of `s`, in order. -/
def wsTokens (s : List Char) : List (List Char) := wsTokensAux [] s

/-- Concatenation of the token lists of a list of texts. -/
def tokensConcat (l : List (List Char)) : List (List Char) :=
  l.foldr (fun w acc => wsTokens w ++ acc) []

/-- The text built by the segmenter loop: each word followed by a space
(`current_text += word + " "`). -/
def wordsJoinTrail (l : List (List Char)) : List Char :=
  l.foldr (fun w acc => w ++ ' ' :: acc) []

/-- Space-separated join of a list of texts. -/
def intercalateSpace : List (List Char) → List Char
  | [] => []
  | [w] => w
  | w :: ws => w ++ ' ' :: intercalateSpace ws

/-! ### `clean_transcript` (gencat_segmenter.py, lines 44-64)

The three `re.sub` calls use patterns of the shape `\nLABEL.*$` (for
`Text:` without flags; for `Author:` / `Source:` with `\s*` after the
`\n` and `re.IGNORECASE`).  Without `re.MULTILINE` / `re.DOTALL`, `.`
does not cross a newline and `$` matches only at the end of the string
or just before a terminal newline, so such a pattern matches exactly
when the label line is the *last* line (an optional final newline
survives the substitution).  `matchTextAt` / `matchLabelAt` implement
a match attempt at one position; `reSubToEnd` is `re.sub` scanning
left to right.  Since `\s*` is followed by a non-whitespace label
character, only the maximal-whitespace split can match, so the
backtracking search is deterministic. -/

/-- The `.*$` tail of the patterns: consume the maximal run of
non-newline characters; `$` then matches iff nothing or exactly a final
newline remains (the remainder is returned). -/
def dollarTail (r : List Char) : Option (List Char) :=
  if r.dropWhile (· ≠ '\n') = [] ∨ r.dropWhile (· ≠ '\n') = ['\n']
  then some (r.dropWhile (· ≠ '\n')) else none

/-- Match attempt for `\nText:.*$` (case-sensitive) at one position. -/
def matchTextAt : List Char → Option (List Char)
  | [] => none
  | c :: rest =>
    if c = '\n' then
      if ("Text:".data).isPrefixOf rest then dollarTail (rest.drop 5) else none
    else none

/-- ASCII case-insensitive prefix test. -/
def ciPrefixOf : List Char → List Char → Bool
  | [], _ => true
  | _ :: _, [] => false
  | a :: p, b :: s => (a.toLower == b.toLower) && ciPrefixOf p s

/-- Match attempt for `\n\s*LABEL.*$` with `re.IGNORECASE` at one
position (used with `LABEL` = `Author:` and `Source:`). -/
def matchLabelAt (label : List Char) : List Char → Option (List Char)
  | [] => none
  | c :: rest =>
    if c = '\n' then
      let body := rest.dropWhile Char.isWhitespace
      if ciPrefixOf label body then dollarTail (body.drop label.length) else none
    else none

/-- `re.sub(pat, '', s)` for the patterns above: scan left to right; on
a match, delete it.  A successful match always extends to the `$`
anchor, so the remainder (`[]` or a lone final newline) admits no
further match and is returned as is. -/
def reSubToEnd (m : List Char → Option (List Char)) : List Char → List Char
  | [] => []
  | c :: rest =>
    match m (c :: rest) with
    | some after => after
    | none => c :: reSubToEnd m rest

/-- `transcript.replace('\n', ' ')`. -/
def nlToSpace (s : List Char) : List Char :=
  s.map (fun c => if c = '\n' then ' ' else c)

/-- `clean_transcript` on character lists: the three metadata
substitutions, newline-to-space, whitespace collapsing, strip. -/
def cleanTranscriptL (s : List Char) : List Char :=
  pyStrip (collapseWs (nlToSpace
    (reSubToEnd (matchLabelAt "Source:".data)
      (reSubToEnd (matchLabelAt "Author:".data)
        (reSubToEnd matchTextAt s)))))

/-- `GencatSegmenter.clean_transcript`. -/
def clean_transcript (s : String) : String := ⟨cleanTranscriptL s.data⟩

/-! ### Data model for the alignment words and the emitted segments

A wordstamp record from the alignment service is a JSON object with
optional fields `word`, `start`, `end`; `dict.get` with a default is
`Option.getD`.  `end` is a Lean keyword, hence the field name `end_`. -/

structure WordData where
  word : Option String := none
  start : Option ℚ := none
  end_ : Option ℚ := none
deriving Repr, DecidableEq

/-- One entry of the `sentences` list built by
`_extract_sentences_ffmpeg`. -/
structure SentenceRow where
  filename : String
  filepath : String
  transcript : String
  start_time : ℚ
  end_time : ℚ
deriving Repr, DecidableEq

/-- One `ffmpeg` invocation made by `_extract_audio_segment`
(`-i input -ss start -t duration`); `ok` records the tool's exit status
(`returncode == 0`), which the caller receives and ignores. -/
structure ExtractCall where
  input_file : String
  output_file : String
  start_time : ℚ
  duration : ℚ
  ok : Bool
deriving Repr, DecidableEq

/-- `re.sub(r'[^\w]', '_', topic)`; `\w` is modelled as ASCII word
characters (the claims only use ASCII topic names). -/
def sanitizeTopic (topic : String) : String :=
  ⟨topic.data.map (fun c => if c.isAlphanum || c = '_' then c else '_')⟩

/-- `f"{level}_{topic_sanitized}_sentence{sentence_index}.mp3"`. -/
def segmentFilename (level topic : String) (idx : Nat) : String :=
  level ++ "_" ++ sanitizeTopic topic ++ "_sentence" ++ toString idx ++ ".mp3"

/-- `word.endswith(".") or word.endswith("!") or word.endswith("?")`. -/
def endsSentence (w : String) : Bool :=
  match w.data.getLast? with
  | some c => c = '.' || c = '!' || c = '?'
  | none => false

/-- Build the sentence record and the associated ffmpeg call from the
buffered words `cur` and accumulated text `curText`; `count` is the
number of sentences already emitted (`len(sentences)`), `okFlag` the
ffmpeg exit status for this call. -/
def sentenceOf (audioOutputDir level topic audioPath : String) (okFlag : Bool)
    (count : Nat) (cur : List WordData) (curText : List Char) :
    SentenceRow × ExtractCall :=
  let first := cur.headD {}
  let last := cur.getLastD {}
  let sStart := first.start.getD 0
  let sEnd := last.end_.getD 0
  let fn := segmentFilename level topic (count + 1)
  let fp := audioOutputDir ++ "/" ++ fn
  ({ filename := fn, filepath := fp, transcript := ⟨pyStrip curText⟩,
     start_time := sStart, end_time := sEnd },
   { input_file := audioPath, output_file := fp, start_time := sStart,
     duration := sEnd - sStart, ok := okFlag })

/-- The word-walking loop of `_extract_sentences_ffmpeg` (lines
195-278): accumulate each word into the current buffer and text, emit a
sentence (and an ffmpeg call) after every word ending in `.`, `!` or
`?`, and emit the remaining buffered words as a final sentence.  `okf`
gives the exit status of the n-th ffmpeg invocation. -/
def extractSentencesLoop (d l t a : String) (okf : Nat → Bool) :
    Nat → List WordData → List Char → List WordData →
    List SentenceRow × List ExtractCall
  | count, cur, curText, [] =>
    match cur with
    | [] => ([], [])
    | _ :: _ =>
      let rc := sentenceOf d l t a (okf count) count cur curText
      ([rc.1], [rc.2])
  | count, cur, curText, w :: rest =>
    let wtxt := w.word.getD ""
    let cur' := cur ++ [w]
    let curText' := curText ++ wtxt.data ++ [' ']
    if endsSentence wtxt then
      let rc := sentenceOf d l t a (okf count) count cur' curText'
      let res := extractSentencesLoop d l t a okf (count + 1) [] [] rest
      (rc.1 :: res.1, rc.2 :: res.2)
    else
      extractSentencesLoop d l t a okf count cur' curText' rest

/-- Does the marker triple start right here?  `w` must be
`"Generalitat"` and the next two words `"de"`, `"Catalunya"`; requiring
two further elements is exactly the source's `i+2 < len(...)` guard. -/
def isMarkerTriple (w : WordData) (rest : List WordData) : Bool :=
  match rest with
  | d :: c :: _ =>
    w.word == some "Generalitat" && d.word == some "de" &&
      c.word == some "Catalunya"
  | _ => false

/-- Scan for the first index where the marker triple starts (lines
182-190); `k` is the index of the list head in the original sequence. -/
def findGeneralitatIndexAux : Nat → List WordData → Option Nat
  | _, [] => none
  | k, w :: rest =>
    if isMarkerTriple w rest then some k
    else findGeneralitatIndexAux (k + 1) rest

/-- `generalitat_index` of `_extract_sentences_ffmpeg`. -/
def findGeneralitatIndex (ws : List WordData) : Option Nat :=
  findGeneralitatIndexAux 0 ws

/-- Does the marker triple start at the head of the list? -/
def markerHere : List WordData → Bool
  | [] => false
  | w :: rest => isMarkerTriple w rest

/-- `_extract_sentences_ffmpeg` on an alignment result that is a list:
truncate at the marker triple if found (`alignment_result[:max_index]`)
and run the sentence loop.  Returns the `sentences` list and the
sequence of ffmpeg invocations made. -/
def extractSentencesFFmpeg (d l t a : String) (okf : Nat → Bool)
    (ws : List WordData) : List SentenceRow × List ExtractCall :=
  let maxIndex := (findGeneralitatIndex ws).getD ws.length
  extractSentencesLoop d l t a okf 0 [] [] (ws.take maxIndex)

/-- `_save_segments_to_csv`: the `|`-delimited rows appended to
`segments.csv`, one `[filename, transcript]` row per sentence. -/
def saveSegmentsRows (sentences : List SentenceRow) : List (String × String) :=
  sentences.map (fun s => (s.filename, s.transcript))

/-- Appending to the manifest file only adds the new rows after the
existing ones. -/
def appendToManifest (manifest : List (String × String))
    (sentences : List SentenceRow) : List (String × String) :=
  manifest ++ saveSegmentsRows sentences

/-! ### `segment_audio_file` (lines 66-160) and the walker (lines 544-608)

The per-item processing is modelled as a total function from an
environment describing the external world (transcript availability,
alignment-service outcome, ffmpeg exit codes) to the returned success
flag and the ordered list of side effects performed.  Exceptions of the
Python code are the explicit failure branches of the environment. -/

/-- Shape of the alignment-service response (section 4.2's two accepted
shapes, plus the rejected remainder). -/
inductive AlignResponse where
  | dictWithWordstamps (ws : List WordData)
  | bareList (ws : List WordData)
  | otherShape
deriving Repr, DecidableEq

/-- Outcome of `replicate.run`: an exception or a response. -/
inductive AlignOutcome where
  | serviceError
  | ok (r : AlignResponse)
deriving Repr, DecidableEq

/-- External side effects of one item, in execution order: the
alignment-response dump (which doubles as the completion marker), the
ffmpeg invocations, the CSV manifest append. -/
inductive Effect where
  | markerWrite (path : String)
  | extract (c : ExtractCall)
  | csvAppend (rows : List (String × String))
deriving Repr, DecidableEq

/-- The external world seen by one `segment_audio_file` call. -/
structure ItemEnv where
  transcript_text : Option String
  transcript_path : Option String
  transcript_path_exists : Bool
  transcript_file_content : String
  align : AlignOutcome
  extractOk : Nat → Bool

/-- Python truthiness of an optional string (`if transcript_text:`;
`None` and `""` are falsy). -/
def truthyStr : Option String → Bool
  | some s => s ≠ ""
  | none => false

/-- The wordstamps accepted from a response: a dict with a
`wordstamps` field or a bare list; anything else is rejected
(lines 122-133). -/
def acceptedWordstamps : AlignResponse → Option (List WordData)
  | .dictWithWordstamps ws => some ws
  | .bareList ws => some ws
  | .otherShape => none

/-- Path of the persisted alignment response.  The source computes
`os.path.join(os.path.dirname(p), os.path.basename(p) + suffix)`,
which equals `p + suffix` for every path `p`; the walker compares
against `audio_path + "_alignment.json"` directly (lines 511, 582). -/
def markerPath (audioPath : String) : String := audioPath ++ "_alignment.json"

/-- `segment_audio_file`: resolve the transcript, call the alignment
service, dump the response (the completion marker), segment, extract
clips, append to the manifest.  Returns the success flag and the
effects performed, in order. -/
def segment_audio_file (audioOutputDir level topic audioPath : String)
    (env : ItemEnv) : Bool × List Effect :=
  let cleanOpt : Option String :=
    if truthyStr env.transcript_text then
      some (clean_transcript (env.transcript_text.getD ""))
    else if truthyStr env.transcript_path && env.transcript_path_exists then
      some (clean_transcript env.transcript_file_content)
    else none
  match cleanOpt with
  | none => (false, [])
  | some _clean_text =>
    match env.align with
    | .serviceError => (false, [])
    | .ok r =>
      match acceptedWordstamps r with
      | none => (false, [])
      | some ws =>
        let res := extractSentencesFFmpeg audioOutputDir level topic audioPath
          env.extractOk ws
        (true, Effect.markerWrite (markerPath audioPath) ::
          (res.2.map Effect.extract ++ [Effect.csvAppend (saveSegmentsRows res.1)]))

/-- `"rapid" in f.lower()`. -/
def isRapidFile (f : String) : Bool := containsStr (lowerStr f) "rapid"

/-- Lines 567-571 / 494-503: split the audio files into rapid and
non-rapid ones and use the rapid ones when any exist. -/
def selectAudioFiles (all_files : List String) : List String :=
  let rapid_files := all_files.filter isRapidFile
  let other_files := all_files.filter (fun f => !isRapidFile f)
  if rapid_files.isEmpty then other_files else rapid_files

/-- One topic directory as seen by `_process_directory_scan`, plus the
environment its processing would run in. -/
structure TopicEntry where
  level : String
  topic : String
  isDir : Bool
  files : List String
  markerExists : Bool
  env : ItemEnv

/-- The body of the topic loop of `_process_directory_scan` (lines
553-594): `none` means the item was skipped (`continue`), `some b`
that `segment_audio_file` ran and returned `b`. -/
def scanTopicStep (audioOutputDir : String) (e : TopicEntry) : Option Bool :=
  if !e.isDir || startsWithStr e.topic "." then none
  else
    match e.files.filter (fun f => endsWithStr f ".txt") with
    | [] => none
    | tf :: _ =>
      let all_files := e.files.filter (fun f => endsWithStr f ".mp3")
      match selectAudioFiles all_files with
      | [] => none
      | af :: _ =>
        if e.markerExists then none
        else
          some (segment_audio_file audioOutputDir e.level e.topic af
            { e.env with transcript_text := none, transcript_path := some tf }).1

/-- `_process_directory_scan`'s iteration over topic entries (levels
flattened into the entry list): count successes, stop after the first
success when `limit_to_one`, and otherwise keep going — a skipped or
failed item just moves on to the next entry. -/
def processDirectoryScanLoop (audioOutputDir : String) (limit_to_one : Bool) :
    Nat → List TopicEntry → Nat
  | count, [] => count
  | count, e :: rest =>
    match scanTopicStep audioOutputDir e with
    | none => processDirectoryScanLoop audioOutputDir limit_to_one count rest
    | some false => processDirectoryScanLoop audioOutputDir limit_to_one count rest
    | some true =>
      if limit_to_one && count + 1 ≥ 1 then count + 1
      else processDirectoryScanLoop audioOutputDir limit_to_one (count + 1) rest

/-- Default-filled copy of a word record: missing `word` becomes `""`,
missing `start`/`end` become `0` — the defaults the segmenter itself
supplies via `dict.get`. -/
def fillDefaults (w : WordData) : WordData :=
  { word := some (w.word.getD ""), start := some (w.start.getD 0),
    end_ := some (w.end_.getD 0) }

/-! ### Concrete inputs used in the claims -/

/-- The boundary-splitting example: `Bon 0-0.5, dia. 0.5-1, Adéu 1-1.5,
amic. 1.5-2`. -/
def bonDiaWords : List WordData :=
  [{ word := some "Bon", start := some 0, end_ := some (1/2) },
   { word := some "dia.", start := some (1/2), end_ := some 1 },
   { word := some "Adéu", start := some 1, end_ := some (3/2) },
   { word := some "amic.", start := some (3/2), end_ := some 2 }]

/-- The marker-exclusion example: `Hola` followed by the marker triple. -/
def holaWords : List WordData :=
  [{ word := some "Hola", start := some 0, end_ := some 1 },
   { word := some "Generalitat", start := some 1, end_ := some 2 },
   { word := some "de", start := some 2, end_ := some 3 },
   { word := some "Catalunya", start := some 3, end_ := some 4 }]

/-- A sequence that is exactly the marker triple: nonempty, no word
ends in punctuation, yet the segmenter excludes everything. -/
def gdcWords : List WordData :=
  [{ word := some "Generalitat", start := some 0, end_ := some 1 },
   { word := some "de", start := some 1, end_ := some 2 },
   { word := some "Catalunya", start := some 2, end_ := some 3 }]

/-- An environment whose alignment call succeeds with the `bonDiaWords`
wordstamps but whose every ffmpeg invocation exits non-zero. -/
def c2Env : ItemEnv :=
  { transcript_text := some "Bon dia. Adéu amic."
    transcript_path := none
    transcript_path_exists := false
    transcript_file_content := ""
    align := AlignOutcome.ok (AlignResponse.dictWithWordstamps bonDiaWords)
    extractOk := fun _ => false }

/-- An environment in which the alignment service raised. -/
def svcErrEnv : ItemEnv :=
  { transcript_text := some "Bon dia."
    transcript_path := none
    transcript_path_exists := false
    transcript_file_content := ""
    align := AlignOutcome.serviceError
    extractOk := fun _ => true }

/-- A topic entry whose item fails (alignment service error). -/
def failingEntry : TopicEntry :=
  { level := "b1", topic := "topic", isDir := true
    files := ["t.txt", "topic_rapid.mp3"], markerExists := false
    env := svcErrEnv }

/-- A topic entry whose item succeeds. -/
def okEntry : TopicEntry :=
  { level := "b1", topic := "topic2", isDir := true
    files := ["t.txt", "topic2_rapid.mp3"], markerExists := false
    env := { svcErrEnv with
             transcript_path_exists := true
             transcript_file_content := "Bon dia."
             align := AlignOutcome.ok (AlignResponse.bareList bonDiaWords) } }

/-! ### Lemmas about whitespace tokenization -/

theorem wsTokensAux_append_ws (c : Char) (hc : c.isWhitespace = true) :
    ∀ (a cur b : List Char),
      wsTokensAux cur (a ++ c :: b) = wsTokensAux cur a ++ wsTokens b := by
  intro a
  induction a with
  | nil =>
    intro cur b
    simp only [List.nil_append, wsTokensAux, hc, wsTokens]
    cases cur with
    | nil => simp [wsTokensAux]
    | cons x xs => simp [wsTokensAux]
  | cons x xs ih =>
    intro cur b
    simp only [List.cons_append, wsTokensAux]
    by_cases hx : x.isWhitespace
    · simp only [hx, if_true]
      cases cur with
      | nil => simpa using ih [] b
      | cons y ys => simpa using ih [] b
    · simp only [hx, Bool.false_eq_true, if_false]
      exact ih (x :: cur) b

theorem wsTokens_append_ws (c : Char) (hc : c.isWhitespace = true)
    (a b : List Char) :
    wsTokens (a ++ c :: b) = wsTokens a ++ wsTokens b :=
  wsTokensAux_append_ws c hc a [] b

theorem wsTokens_append_all_ws :
    ∀ (r a : List Char), (∀ c ∈ r, c.isWhitespace = true) →
      wsTokens (a ++ r) = wsTokens a := by
  intro r
  induction r with
  | nil => intro a _; simp
  | cons c r ih =>
    intro a h
    have hc : c.isWhitespace = true := h c (by simp)
    have h' : ∀ x ∈ r, x.isWhitespace = true := fun x hx => h x (by simp [hx])
    calc wsTokens (a ++ c :: r) = wsTokens ((a ++ [c]) ++ r) := by simp
      _ = wsTokens (a ++ [c]) := ih (a ++ [c]) h'
      _ = wsTokens (a ++ c :: []) := rfl
      _ = wsTokens a ++ wsTokens [] := wsTokens_append_ws c hc a []
      _ = wsTokens a := by simp [wsTokens, wsTokensAux]

theorem wsTokens_dropWhile_ws (s : List Char) :
    wsTokens (s.dropWhile Char.isWhitespace) = wsTokens s := by
  induction s with
  | nil => rfl
  | cons c rest ih =>
    by_cases hc : c.isWhitespace
    · simpa [List.dropWhile, hc, wsTokens, wsTokensAux] using ih
    · simp [List.dropWhile, hc]

theorem wsTokens_stripR (s : List Char) : wsTokens (stripR s) = wsTokens s := by
  have hs : stripR s ++ (s.reverse.takeWhile Char.isWhitespace).reverse = s := by
    have h1 := List.takeWhile_append_dropWhile (p := Char.isWhitespace) (l := s.reverse)
    have h2 := congrArg List.reverse h1
    rw [List.reverse_append, List.reverse_reverse] at h2
    exact h2
  have hws : ∀ c ∈ (s.reverse.takeWhile Char.isWhitespace).reverse,
      c.isWhitespace = true := by
    intro c hcmem
    have : c ∈ s.reverse.takeWhile Char.isWhitespace := by simpa using hcmem
    exact List.mem_takeWhile_imp this
  conv_rhs => rw [← hs]
  exact (wsTokens_append_all_ws _ (stripR s) hws).symm

theorem wsTokens_pyStrip (s : List Char) : wsTokens (pyStrip s) = wsTokens s := by
  unfold pyStrip stripL
  rw [wsTokens_stripR, wsTokens_dropWhile_ws]

theorem wsTokens_wordsJoinTrail (l : List (List Char)) :
    wsTokens (wordsJoinTrail l) = tokensConcat l := by
  induction l with
  | nil => rfl
  | cons w ws ih =>
    have : wordsJoinTrail (w :: ws) = w ++ ' ' :: wordsJoinTrail ws := rfl
    rw [this, wsTokens_append_ws ' ' rfl, ih]
    rfl

theorem wsTokens_intercalateSpace (l : List (List Char)) :
    wsTokens (intercalateSpace l) = tokensConcat l := by
  induction l with
  | nil => rfl
  | cons w ws ih =>
    cases ws with
    | nil => simp [intercalateSpace, tokensConcat]
    | cons w' ws' =>
      have : intercalateSpace (w :: w' :: ws') = w ++ ' ' :: intercalateSpace (w' :: ws') := rfl
      rw [this, wsTokens_append_ws ' ' rfl, ih]
      rfl

/-! ### Lemmas about the `re.sub` embedding -/

theorem reSubToEnd_cons_none (m : List Char → Option (List Char))
    (c : Char) (t : List Char) (h : m (c :: t) = none) :
    reSubToEnd m (c :: t) = c :: reSubToEnd m t := by
  simp [reSubToEnd, h]

theorem reSubToEnd_cons_some (m : List Char → Option (List Char))
    (c : Char) (t after : List Char) (h : m (c :: t) = some after) :
    reSubToEnd m (c :: t) = after := by
  simp [reSubToEnd, h]

theorem reSubToEnd_append_of_no_head (m : List Char → Option (List Char))
    (hm : ∀ x t, x ≠ '\n' → m (x :: t) = none) :
    ∀ (p r : List Char), '\n' ∉ p → reSubToEnd m (p ++ r) = p ++ reSubToEnd m r := by
  intro p
  induction p with
  | nil => intro r _; rfl
  | cons c cs ih =>
    intro r hp
    have hc : c ≠ '\n' := fun h => hp (by simp [h])
    have hcs : '\n' ∉ cs := fun h => hp (List.mem_cons_of_mem _ h)
    rw [List.cons_append, reSubToEnd_cons_none m c (cs ++ r) (hm c (cs ++ r) hc),
      ih r hcs, List.cons_append]

theorem matchTextAt_no_head (x : Char) (t : List Char) (hx : x ≠ '\n') :
    matchTextAt (x :: t) = none := by
  simp [matchTextAt, hx]

theorem matchLabelAt_no_head (label : List Char) (x : Char) (t : List Char)
    (hx : x ≠ '\n') : matchLabelAt label (x :: t) = none := by
  simp [matchLabelAt, hx]

theorem reSubToEnd_of_no_nl (m : List Char → Option (List Char))
    (hm : ∀ x t, x ≠ '\n' → m (x :: t) = none)
    (p : List Char) (hp : '\n' ∉ p) : reSubToEnd m p = p := by
  have := reSubToEnd_append_of_no_head m hm p [] hp
  simpa [reSubToEnd] using this

/-- A substitution over a text with exactly one newline, at which the
matcher fails, is the identity. -/
theorem reSub_single_nl (m : List Char → Option (List Char))
    (hm : ∀ x t, x ≠ '\n' → m (x :: t) = none)
    (p X : List Char) (hp : '\n' ∉ p) (hX : '\n' ∉ X)
    (hmid : m ('\n' :: X) = none) :
    reSubToEnd m (p ++ '\n' :: X) = p ++ '\n' :: X := by
  rw [reSubToEnd_append_of_no_head m hm p ('\n' :: X) hp,
    reSubToEnd_cons_none m '\n' X hmid, reSubToEnd_of_no_nl m hm X hX]

/-- A substitution over a text with exactly two newlines, at both of
which the matcher fails, is the identity. -/
theorem reSub_double_nl (m : List Char → Option (List Char))
    (hm : ∀ x t, x ≠ '\n' → m (x :: t) = none)
    (p L M : List Char) (hp : '\n' ∉ p) (hL : '\n' ∉ L) (hM : '\n' ∉ M)
    (h1 : m ('\n' :: (L ++ '\n' :: M)) = none) (h2 : m ('\n' :: M) = none) :
    reSubToEnd m (p ++ '\n' :: (L ++ '\n' :: M)) = p ++ '\n' :: (L ++ '\n' :: M) := by
  rw [reSubToEnd_append_of_no_head m hm p ('\n' :: (L ++ '\n' :: M)) hp,
    reSubToEnd_cons_none m '\n' _ h1,
    reSubToEnd_append_of_no_head m hm L ('\n' :: M) hL,
    reSubToEnd_cons_none m '\n' M h2, reSubToEnd_of_no_nl m hm M hM]

/-! ### Lemmas about the sentence loop -/

/-- The `sentences` list built by the loop does not depend on the ffmpeg
exit statuses: the source never looks at `_extract_audio_segment`'s
return value. -/
theorem extractSentencesLoop_fst_okf (d l t a : String) (okf okf' : Nat → Bool) :
    ∀ (rest : List WordData) (count : Nat) (cur : List WordData) (curText : List Char),
      (extractSentencesLoop d l t a okf count cur curText rest).1 =
      (extractSentencesLoop d l t a okf' count cur curText rest).1 := by
  intro rest
  induction rest with
  | nil => intro count cur curText; cases cur <;> rfl
  | cons w rest ih =>
    intro count cur curText
    simp only [extractSentencesLoop]
    by_cases h : endsSentence (w.word.getD "") = true
    · simp only [h, if_true, List.cons.injEq]
      exact ⟨rfl, ih (count + 1) [] []⟩
    · simp only [h, Bool.false_eq_true, if_false]
      exact ih count (cur ++ [w]) (curText ++ (w.word.getD "").data ++ [' '])

/-- When no word of the remaining input ends a sentence, the loop emits
exactly one final sentence from everything buffered plus the remaining
words. -/
theorem extractSentencesLoop_no_boundary (d l t a : String) (okf : Nat → Bool) :
    ∀ (rest : List WordData) (count : Nat) (cur : List WordData) (curText : List Char),
      (∀ w ∈ rest, endsSentence (w.word.getD "") = false) →
      cur ++ rest ≠ [] →
      extractSentencesLoop d l t a okf count cur curText rest =
        ([(sentenceOf d l t a (okf count) count (cur ++ rest)
            (curText ++ wordsJoinTrail (rest.map (fun w => (w.word.getD "").data)))).1],
         [(sentenceOf d l t a (okf count) count (cur ++ rest)
            (curText ++ wordsJoinTrail (rest.map (fun w => (w.word.getD "").data)))).2]) := by
  intro rest
  induction rest with
  | nil =>
    intro count cur curText _ hne
    cases cur with
    | nil => exact absurd rfl hne
    | cons c cs => simp [extractSentencesLoop, wordsJoinTrail]
  | cons w rest ih =>
    intro count cur curText hnb hne
    have hw : endsSentence (w.word.getD "") = false := hnb w (by simp)
    have hnb' : ∀ x ∈ rest, endsSentence (x.word.getD "") = false :=
      fun x hx => hnb x (by simp [hx])
    simp only [extractSentencesLoop, hw, Bool.false_eq_true, if_false]
    rw [ih count (cur ++ [w]) (curText ++ (w.word.getD "").data ++ [' ']) hnb'
      (by simp)]
    have h1 : (cur ++ [w]) ++ rest = cur ++ w :: rest := by simp
    have h2 : (curText ++ (w.word.getD "").data ++ [' ']) ++
        wordsJoinTrail (rest.map (fun x => (x.word.getD "").data)) =
        curText ++ wordsJoinTrail ((w :: rest).map (fun x => (x.word.getD "").data)) := by
      simp [wordsJoinTrail]
    rw [h1, h2]

/-- Token-level invariant of the loop: the emitted sentence texts carry
exactly the tokens of the accumulated text plus the remaining words. -/
theorem tokensConcat_extractSentencesLoop (d l t a : String) (okf : Nat → Bool) :
    ∀ (rest : List WordData) (count : Nat) (cur : List WordData) (curText : List Char),
      (cur = [] → curText = []) →
      tokensConcat ((extractSentencesLoop d l t a okf count cur curText rest).1.map
          (fun r => r.transcript.data)) =
        wsTokens (curText ++ wordsJoinTrail (rest.map (fun w => (w.word.getD "").data))) := by
  intro rest
  induction rest with
  | nil =>
    intro count cur curText hinv
    cases cur with
    | nil =>
      rw [hinv rfl]
      rfl
    | cons c cs =>
      simp only [extractSentencesLoop, List.map_cons, List.map_nil, tokensConcat,
        List.foldr]
      show wsTokens (pyStrip curText) ++ [] = _
      rw [List.append_nil, wsTokens_pyStrip]
      simp [wordsJoinTrail]
  | cons w rest ih =>
    intro count cur curText hinv
    simp only [extractSentencesLoop]
    by_cases h : endsSentence (w.word.getD "") = true
    · simp only [h, if_true, List.map_cons]
      have hstep : tokensConcat
          ((sentenceOf d l t a (okf count) count (cur ++ [w])
              (curText ++ (w.word.getD "").data ++ [' '])).1.transcript.data ::
            (extractSentencesLoop d l t a okf (count + 1) [] [] rest).1.map
              (fun r => r.transcript.data)) =
          wsTokens (pyStrip (curText ++ (w.word.getD "").data ++ [' '])) ++
            tokensConcat ((extractSentencesLoop d l t a okf (count + 1) [] [] rest).1.map
              (fun r => r.transcript.data)) := rfl
      rw [hstep, wsTokens_pyStrip, ih (count + 1) [] [] (fun _ => rfl)]
      have hL : wsTokens (curText ++ (w.word.getD "").data ++ [' ']) =
          wsTokens (curText ++ (w.word.getD "").data) := by
        have := wsTokens_append_ws ' ' rfl (curText ++ (w.word.getD "").data) []
        simpa [wsTokens, wsTokensAux] using this
      rw [hL]
      have h1 : curText ++ wordsJoinTrail ((w.word.getD "").data ::
            rest.map (fun x => (x.word.getD "").data)) =
          (curText ++ (w.word.getD "").data) ++
            ' ' :: wordsJoinTrail (rest.map (fun x => (x.word.getD "").data)) := by
        simp [wordsJoinTrail]
      rw [List.nil_append, h1, wsTokens_append_ws ' ' rfl]
    · simp only [h, Bool.false_eq_true, if_false]
      rw [ih count (cur ++ [w]) (curText ++ (w.word.getD "").data ++ [' '])
        (by intro hx; exact absurd hx (by simp))]
      congr 1
      simp [wordsJoinTrail]

/-! ### Lemmas about the marker-triple scan -/

theorem findGeneralitatIndexAux_eq_some :
    ∀ (ws : List WordData) (k m : Nat), findGeneralitatIndexAux k ws = some m →
      ∃ j, m = k + j ∧ markerHere (ws.drop j) = true ∧
        ∀ j' < j, markerHere (ws.drop j') = false := by
  intro ws
  induction ws with
  | nil => intro k m h; exact absurd h (by simp [findGeneralitatIndexAux])
  | cons w rest ih =>
    intro k m h
    by_cases hm : isMarkerTriple w rest = true
    · have hk : k = m := by simpa [findGeneralitatIndexAux, hm] using h
      refine ⟨0, by omega, by simpa [markerHere] using hm, ?_⟩
      intro j' hj'
      omega
    · have h' : findGeneralitatIndexAux (k + 1) rest = some m := by
        simpa [findGeneralitatIndexAux, hm] using h
      obtain ⟨j, hj, hmark, hfirst⟩ := ih (k + 1) m h'
      refine ⟨j + 1, by omega, by simpa using hmark, ?_⟩
      intro j' hj'
      cases j' with
      | zero => simpa [markerHere] using hm
      | succ j'' => simpa using hfirst j'' (by omega)

theorem findGeneralitatIndexAux_eq_none :
    ∀ (ws : List WordData) (k : Nat), (∀ j, markerHere (ws.drop j) = false) →
      findGeneralitatIndexAux k ws = none := by
  intro ws
  induction ws with
  | nil => intro k _; rfl
  | cons w rest ih =>
    intro k h
    have h0 : isMarkerTriple w rest = false := by simpa [markerHere] using h 0
    simp only [findGeneralitatIndexAux, h0, Bool.false_eq_true, if_false]
    exact ih (k + 1) (fun j => by simpa using h (j + 1))

/-- If the first three elements survive `take`, they are the first three
elements of the original list. -/
theorem take_eq_cons3 {α : Type} (l : List α) (n : Nat) (x y z : α) (t : List α)
    (h : l.take n = x :: y :: z :: t) : ∃ t', l = x :: y :: z :: t' := by
  cases l with
  | nil => simp at h
  | cons a l1 =>
    cases n with
    | zero => simp at h
    | succ n1 =>
      rw [List.take_succ_cons] at h
      injection h with ha h1
      cases l1 with
      | nil => simp at h1
      | cons b l2 =>
        cases n1 with
        | zero => simp at h1
        | succ n2 =>
          rw [List.take_succ_cons] at h1
          injection h1 with hb h2
          cases l2 with
          | nil => simp at h2
          | cons c l3 =>
            cases n2 with
            | zero => simp at h2
            | succ n3 =>
              rw [List.take_succ_cons] at h2
              injection h2 with hc h3
              exact ⟨l3, by rw [ha, hb, hc]⟩

/-- The marker test only inspects the first three elements, so a marker
found at the head of a `take` is at the head of the full list. -/
theorem markerHere_take (u : List WordData) (q : Nat)
    (h : markerHere (u.take q) = true) : markerHere u = true := by
  cases htq : u.take q with
  | nil => rw [htq] at h; simp [markerHere] at h
  | cons x rest' =>
    rw [htq] at h
    cases rest' with
    | nil => simp [markerHere, isMarkerTriple] at h
    | cons y rest'' =>
      cases rest'' with
      | nil => simp [markerHere, isMarkerTriple] at h
      | cons z t =>
        obtain ⟨t', ht⟩ := take_eq_cons3 u q x y z t htq
        rw [ht]
        simpa [markerHere, isMarkerTriple] using h

/-- Truncating strictly before the first marker occurrence leaves a
sequence with no marker occurrence at all. -/
theorem findGeneralitatIndex_take_of_first (ws : List WordData) (i : Nat)
    (h : findGeneralitatIndex ws = some i) :
    findGeneralitatIndex (ws.take i) = none := by
  obtain ⟨j, hj, hmark, hfirst⟩ := findGeneralitatIndexAux_eq_some ws 0 i h
  have hij : i = j := by omega
  subst hij
  apply findGeneralitatIndexAux_eq_none
  intro j'
  cases hb : markerHere ((ws.take i).drop j') with
  | false => rfl
  | true =>
    exfalso
    rw [List.drop_take] at hb
    by_cases hlt : j' < i
    · have := markerHere_take (ws.drop j') (i - j') hb
      rw [hfirst j' hlt] at this
      exact Bool.false_ne_true this
    · have hz : i - j' = 0 := by omega
      rw [hz] at hb
      simp [markerHere] at hb

/-! ### Lemmas about default-filled word records -/

theorem getD_some_beq (x : Option String) (v : String) (hv : v ≠ "") :
    (some (x.getD "") == some v) = (x == some v) := by
  cases x with
  | none =>
    show (("" : String) == v) = false
    exact beq_eq_false_iff_ne.mpr (fun h => hv h.symm)
  | some s => rfl

theorem isMarkerTriple_fill (w : WordData) (rest : List WordData) :
    isMarkerTriple (fillDefaults w) (rest.map fillDefaults) =
      isMarkerTriple w rest := by
  cases rest with
  | nil => rfl
  | cons d rest' =>
    cases rest' with
    | nil => rfl
    | cons c rest'' =>
      show ((some (w.word.getD "") == some "Generalitat") &&
          (some (d.word.getD "") == some "de") &&
          (some (c.word.getD "") == some "Catalunya")) = _
      rw [getD_some_beq w.word "Generalitat" (by decide),
        getD_some_beq d.word "de" (by decide),
        getD_some_beq c.word "Catalunya" (by decide)]
      rfl

theorem findGeneralitatIndexAux_fill :
    ∀ (ws : List WordData) (k : Nat),
      findGeneralitatIndexAux k (ws.map fillDefaults) =
        findGeneralitatIndexAux k ws := by
  intro ws
  induction ws with
  | nil => intro k; rfl
  | cons w rest ih =>
    intro k
    simp only [List.map_cons, findGeneralitatIndexAux]
    rw [show (rest.map fillDefaults) = (rest.map fillDefaults) from rfl]
    have hmk := isMarkerTriple_fill w rest
    by_cases hm : isMarkerTriple w rest = true
    · simp [hmk, hm]
    · simp only [Bool.not_eq_true] at hm
      simp [hmk, hm, ih (k + 1)]

theorem sentenceOf_fill (d l t a : String) (b : Bool) (count : Nat)
    (cur : List WordData) (curText : List Char) :
    sentenceOf d l t a b count (cur.map fillDefaults) curText =
      sentenceOf d l t a b count cur curText := by
  cases cur with
  | nil => rfl
  | cons x xs =>
    unfold sentenceOf
    have hhead : ((x :: xs).map fillDefaults).headD {} = fillDefaults x := rfl
    have hlast : ((x :: xs).map fillDefaults).getLastD {} =
        fillDefaults ((x :: xs).getLastD {}) := by
      rw [List.getLastD_eq_getLast?, List.getLastD_eq_getLast?,
        List.getLast?_map]
      cases hxl : (x :: xs).getLast? with
      | none => simp at hxl
      | some y => simp [hxl]
    rw [hhead, hlast]
    rfl

theorem extractSentencesLoop_fill (d l t a : String) (okf : Nat → Bool) :
    ∀ (rest : List WordData) (count : Nat) (cur : List WordData) (curText : List Char),
      extractSentencesLoop d l t a okf count (cur.map fillDefaults) curText
          (rest.map fillDefaults) =
        extractSentencesLoop d l t a okf count cur curText rest := by
  intro rest
  induction rest with
  | nil =>
    intro count cur curText
    cases cur with
    | nil => rfl
    | cons x xs =>
      simp only [List.map_cons, List.map_nil, extractSentencesLoop]
      rw [← List.map_cons fillDefaults x xs, sentenceOf_fill]
  | cons w rest ih =>
    intro count cur curText
    simp only [List.map_cons, extractSentencesLoop]
    have hword : (fillDefaults w).word.getD "" = w.word.getD "" := rfl
    rw [hword]
    by_cases h : endsSentence (w.word.getD "") = true
    · simp only [h, if_true]
      have hc : cur.map fillDefaults ++ [fillDefaults w] =
          (cur ++ [w]).map fillDefaults := by simp
      have h2 := ih (count + 1) [] []
      simp only [List.map_nil] at h2
      rw [hc, sentenceOf_fill, h2]
    · simp only [h, Bool.false_eq_true, if_false]
      have hc : cur.map fillDefaults ++ [fillDefaults w] =
          (cur ++ [w]).map fillDefaults := by simp
      rw [hc, ih count (cur ++ [w])]

/-! ### The claims -/

/-- Claim C6: on the four timed words `Bon (0-0.5)`, `dia. (0.5-1)`,
`Adéu (1-1.5)`, `amic. (1.5-2)`, `segment` returns exactly two
sentence spans — `"Bon dia."` from 0 to 1 and `"Adéu amic."` from 1 to
2 — with a boundary right after each word ending in `.` (each span also
triggers one ffmpeg cut at its start/duration). -/
theorem c6_boundary_splitting :
    extractSentencesFFmpeg "data/corpus/audio" "b1" "topic" "a.mp3"
        (fun _ => true) bonDiaWords =
      ([{ filename := "b1_topic_sentence1.mp3",
          filepath := "data/corpus/audio/b1_topic_sentence1.mp3",
          transcript := "Bon dia.", start_time := 0, end_time := 1 },
        { filename := "b1_topic_sentence2.mp3",
          filepath := "data/corpus/audio/b1_topic_sentence2.mp3",
          transcript := "Adéu amic.", start_time := 1, end_time := 2 }],
       [{ input_file := "a.mp3",
          output_file := "data/corpus/audio/b1_topic_sentence1.mp3",
          start_time := 0, duration := 1, ok := true },
        { input_file := "a.mp3",
          output_file := "data/corpus/audio/b1_topic_sentence2.mp3",
          start_time := 1, duration := 1, ok := true }]) := by
  with_unfolding_all decide

/-- Claim C3 (counterexample): the claim states that every timed-word
sequence with no punctuation-terminated word yields exactly one span
covering the whole input.  The sequence consisting of exactly the
marker triple `Generalitat de Catalunya` is nonempty and has no
punctuation-terminated word, yet `segment` returns no span at all
(the marker scan excludes every word). -/
theorem c3_counterexample :
    gdcWords ≠ [] ∧
    gdcWords.all (fun w => !endsSentence (w.word.getD "")) = true ∧
    (extractSentencesFFmpeg "data/corpus/audio" "b1" "topic" "a.mp3"
        (fun _ => true) gdcWords).1 = [] := by
  refine ⟨by decide, by decide, by decide⟩

/-- Claim C3 (amended): for every *nonempty* timed-word sequence in
which no word's text ends with `.`, `!` or `?` *and in which the marker
triple does not occur*, `segment` returns exactly one SentenceSpan
covering the entire input: start is the first word's start, end the
last word's end, and the text the whitespace-joined word texts
(trimmed), with missing fields defaulted to `""` / `0`. -/
theorem c3_amended_single_span (d l t a : String) (okf : Nat → Bool)
    (ws : List WordData) (hne : ws ≠ [])
    (hnb : ∀ w ∈ ws, endsSentence (w.word.getD "") = false)
    (hnm : findGeneralitatIndex ws = none) :
    (extractSentencesFFmpeg d l t a okf ws).1 =
      [{ filename := segmentFilename l t 1,
         filepath := d ++ "/" ++ segmentFilename l t 1,
         transcript :=
           ⟨pyStrip (wordsJoinTrail (ws.map (fun w => (w.word.getD "").data)))⟩,
         start_time := (ws.headD {}).start.getD 0,
         end_time := (ws.getLastD {}).end_.getD 0 }] := by
  unfold extractSentencesFFmpeg
  rw [hnm]
  simp only [Option.getD_none, List.take_length]
  rw [extractSentencesLoop_no_boundary d l t a okf ws 0 [] [] hnb (by simpa using hne)]
  simp [sentenceOf]

/-- Witness for the amended C3, at the single unterminated word
`Hola (0-1)`. -/
theorem c3_amended_single_span_witness :
    (extractSentencesFFmpeg "d" "b1" "topic" "a.mp3" (fun _ => true)
        [{ word := some "Hola", start := some 0, end_ := some 1 }]).1 =
      [{ filename := segmentFilename "b1" "topic" 1,
         filepath := "d" ++ "/" ++ segmentFilename "b1" "topic" 1,
         transcript := ⟨pyStrip (wordsJoinTrail
           ([({ word := some "Hola", start := some 0, end_ := some 1 } :
             WordData)].map (fun w => (w.word.getD "").data)))⟩,
         start_time := (([({ word := some "Hola", start := some 0, end_ := some 1 } :
             WordData)]).headD {}).start.getD 0,
         end_time := (([({ word := some "Hola", start := some 0, end_ := some 1 } :
             WordData)]).getLastD {}).end_.getD 0 }] :=
  c3_amended_single_span "d" "b1" "topic" "a.mp3" (fun _ => true)
    [{ word := some "Hola", start := some 0, end_ := some 1 }]
    (by decide) (by decide) (by decide)

/-- Claim C10: records missing the `word` field contribute empty text
and spans whose first/last record lack `start`/`end` use `0`; `segment`
treats such partially-populated records exactly as if the defaults were
present (first conjunct), and never fails — on a single record with all
fields missing it still emits one span with empty text and zero times
(second conjunct). -/
theorem c10_partial_records (d l t a : String) (okf : Nat → Bool)
    (ws : List WordData) :
    extractSentencesFFmpeg d l t a okf (ws.map fillDefaults) =
      extractSentencesFFmpeg d l t a okf ws ∧
    (extractSentencesFFmpeg d l t a okf [({} : WordData)]).1 =
      [{ filename := segmentFilename l t 1,
         filepath := d ++ "/" ++ segmentFilename l t 1,
         transcript := "", start_time := 0, end_time := 0 }] := by
  constructor
  · have hfind : findGeneralitatIndex (ws.map fillDefaults) = findGeneralitatIndex ws :=
      findGeneralitatIndexAux_fill ws 0
    show extractSentencesLoop d l t a okf 0 [] []
        ((ws.map fillDefaults).take
          ((findGeneralitatIndex (ws.map fillDefaults)).getD (ws.map fillDefaults).length)) =
      extractSentencesLoop d l t a okf 0 [] []
        (ws.take ((findGeneralitatIndex ws).getD ws.length))
    rw [hfind, List.length_map, ← List.map_take]
    have h := extractSentencesLoop_fill d l t a okf
      (ws.take ((findGeneralitatIndex ws).getD ws.length)) 0 [] []
    simpa using h
  · with_unfolding_all rfl

/-- Claim C5: for every timed-word sequence, the concatenation (in
order) of the texts of all spans returned by `segment` equals the
concatenation of all input word texts up to and excluding the first
occurrence of the marker triple, modulo whitespace normalization.
Concatenation of texts is space-separated joining, and "equal modulo
whitespace normalization" is formalized as equality of the
whitespace-token lists (`wsTokens`). -/
theorem c5_concatenation_mod_whitespace (d l t a : String) (okf : Nat → Bool)
    (ws : List WordData) :
    wsTokens (intercalateSpace
        ((extractSentencesFFmpeg d l t a okf ws).1.map (fun r => r.transcript.data))) =
      wsTokens (intercalateSpace
        ((ws.take ((findGeneralitatIndex ws).getD ws.length)).map
          (fun w => (w.word.getD "").data))) := by
  rw [wsTokens_intercalateSpace, wsTokens_intercalateSpace]
  have h := tokensConcat_extractSentencesLoop d l t a okf
    (ws.take ((findGeneralitatIndex ws).getD ws.length)) 0 [] [] (fun _ => rfl)
  rw [show (extractSentencesFFmpeg d l t a okf ws).1 =
      (extractSentencesLoop d l t a okf 0 [] []
        (ws.take ((findGeneralitatIndex ws).getD ws.length))).1 from rfl]
  rw [h, List.nil_append, wsTokens_wordsJoinTrail]

/-- Claim C7: on `Hola, Generalitat, de, Catalunya` the marker triple
is located at index 1 and one span with text `"Hola"` results; in
general, when the marker triple is found at index `i` the words at and
after `i` are excluded (segmenting the full list equals segmenting its
`i`-prefix), and when it is not found the whole sequence is processed
(fail-open). -/
theorem c7_marker_exclusion (d l t a : String) (okf : Nat → Bool) :
    (extractSentencesFFmpeg d l t a okf holaWords).1.map SentenceRow.transcript
        = ["Hola"] ∧
    findGeneralitatIndex holaWords = some 1 ∧
    (∀ (ws : List WordData) (i : Nat), findGeneralitatIndex ws = some i →
      extractSentencesFFmpeg d l t a okf ws =
        extractSentencesFFmpeg d l t a okf (ws.take i)) ∧
    (∀ ws : List WordData, findGeneralitatIndex ws = none →
      extractSentencesFFmpeg d l t a okf ws =
        extractSentencesLoop d l t a okf 0 [] [] ws) := by
  refine ⟨by with_unfolding_all rfl, by decide, ?_, ?_⟩
  · intro ws i h
    show extractSentencesLoop d l t a okf 0 [] []
        (ws.take ((findGeneralitatIndex ws).getD ws.length)) =
      extractSentencesLoop d l t a okf 0 [] []
        ((ws.take i).take ((findGeneralitatIndex (ws.take i)).getD (ws.take i).length))
    rw [h, findGeneralitatIndex_take_of_first ws i h, Option.getD_some,
      Option.getD_none, List.take_length]
  · intro ws h
    show extractSentencesLoop d l t a okf 0 [] []
        (ws.take ((findGeneralitatIndex ws).getD ws.length)) =
      extractSentencesLoop d l t a okf 0 [] [] ws
    rw [h]
    simp

/-- Witness for C7: the marker-found branch applied to `holaWords`
(marker at 1) and the fail-open branch applied to `bonDiaWords`
(no marker). -/
theorem c7_marker_exclusion_witness :
    extractSentencesFFmpeg "d" "b1" "topic" "a.mp3" (fun _ => true) holaWords =
      extractSentencesFFmpeg "d" "b1" "topic" "a.mp3" (fun _ => true)
        (holaWords.take 1) ∧
    extractSentencesFFmpeg "d" "b1" "topic" "a.mp3" (fun _ => true) bonDiaWords =
      extractSentencesLoop "d" "b1" "topic" "a.mp3" (fun _ => true) 0 [] []
        bonDiaWords :=
  ⟨(c7_marker_exclusion "d" "b1" "topic" "a.mp3" (fun _ => true)).2.2.1
      holaWords 1 (by decide),
   (c7_marker_exclusion "d" "b1" "topic" "a.mp3" (fun _ => true)).2.2.2
      bonDiaWords (by decide)⟩

/-- Claim C1 (counterexample): on `bonDiaWords` with every ffmpeg
invocation exiting non-zero, both extraction calls fail, yet both
spans' rows — including the failed first clip `b1_topic_sentence1.mp3`
— appear in the manifest rows.  The claim that a failed clip's row is
absent from the manifest is therefore false: the source ignores
`_extract_audio_segment`'s return value. -/
theorem c1_counterexample :
    (extractSentencesFFmpeg "data/corpus/audio" "b1" "topic" "a.mp3"
        (fun _ => false) bonDiaWords).2.all (fun c => !c.ok) = true ∧
    saveSegmentsRows (extractSentencesFFmpeg "data/corpus/audio" "b1" "topic"
        "a.mp3" (fun _ => false) bonDiaWords).1 =
      [("b1_topic_sentence1.mp3", "Bon dia."),
       ("b1_topic_sentence2.mp3", "Adéu amic.")] := by
  exact ⟨by with_unfolding_all decide, by with_unfolding_all decide⟩

/-- Claim C1 (amended): when an audio-cutting invocation exits
non-zero the failure is only logged — the remaining spans of the item
are still processed, and the failed span's row is nevertheless present
in the manifest: the emitted rows do not depend on the ffmpeg exit
statuses at all, and every span's row is appended to the manifest. -/
theorem c1_failed_clip_still_recorded (d l t a : String)
    (okf okf' : Nat → Bool) (ws : List WordData)
    (manifest : List (String × String)) :
    (extractSentencesFFmpeg d l t a okf ws).1 =
      (extractSentencesFFmpeg d l t a okf' ws).1 ∧
    ∀ r ∈ (extractSentencesFFmpeg d l t a okf ws).1,
      (r.filename, r.transcript) ∈
        appendToManifest manifest (extractSentencesFFmpeg d l t a okf ws).1 := by
  constructor
  · exact extractSentencesLoop_fst_okf d l t a okf okf' _ 0 [] []
  · intro r hr
    unfold appendToManifest saveSegmentsRows
    exact List.mem_append_right _ (List.mem_map_of_mem _ hr)

/-- Witness for the amended C1: the first `bonDiaWords` row (whose
ffmpeg call failed under the all-failing oracle) is in the appended
manifest. -/
theorem c1_failed_clip_still_recorded_witness :
    (extractSentencesFFmpeg "data/corpus/audio" "b1" "topic" "a.mp3"
        (fun _ => false) bonDiaWords).1 =
      (extractSentencesFFmpeg "data/corpus/audio" "b1" "topic" "a.mp3"
        (fun _ => true) bonDiaWords).1 ∧
    ({ filename := "b1_topic_sentence1.mp3",
       filepath := "data/corpus/audio/b1_topic_sentence1.mp3",
       transcript := "Bon dia.", start_time := 0, end_time := 1 } :
        SentenceRow).filename ∈
      (appendToManifest [] (extractSentencesFFmpeg "data/corpus/audio" "b1"
        "topic" "a.mp3" (fun _ => false) bonDiaWords).1).map Prod.fst :=
  ⟨(c1_failed_clip_still_recorded "data/corpus/audio" "b1" "topic" "a.mp3"
      (fun _ => false) (fun _ => true) bonDiaWords []).1,
   List.mem_map_of_mem Prod.fst
     ((c1_failed_clip_still_recorded "data/corpus/audio" "b1" "topic" "a.mp3"
        (fun _ => false) (fun _ => true) bonDiaWords []).2
       { filename := "b1_topic_sentence1.mp3",
         filepath := "data/corpus/audio/b1_topic_sentence1.mp3",
         transcript := "Bon dia.", start_time := 0, end_time := 1 }
       (by with_unfolding_all decide))⟩

/-- Claim C2 (counterexample): with `c2Env` — a resolvable transcript,
an accepted alignment response, and every ffmpeg call exiting non-zero
— `segment_audio_file` writes the completion marker as its *first*
effect, before the (failing) clip extractions and before the manifest
append, and still reports success.  This contradicts the claim that
the marker is written only after alignment, segmentation, clip
extraction and manifest append have all completed. -/
theorem c2_counterexample :
    segment_audio_file "data/corpus/audio" "b1" "topic" "a.mp3" c2Env =
      (true,
       [Effect.markerWrite "a.mp3_alignment.json",
        Effect.extract
          { input_file := "a.mp3",
            output_file := "data/corpus/audio/b1_topic_sentence1.mp3",
            start_time := 0, duration := 1, ok := false },
        Effect.extract
          { input_file := "a.mp3",
            output_file := "data/corpus/audio/b1_topic_sentence2.mp3",
            start_time := 1, duration := 1, ok := false },
        Effect.csvAppend [("b1_topic_sentence1.mp3", "Bon dia."),
          ("b1_topic_sentence2.mp3", "Adéu amic.")]]) := by
  with_unfolding_all rfl

/-- Claim C2 (amended): the completion marker (the persisted alignment
response) is written as soon as the alignment response is accepted —
*before* segmentation, clip extraction and the manifest append — and
the item is reported successful regardless of the ffmpeg exit
statuses; a later run will therefore skip the item even if its clips
or manifest rows were never correctly produced. -/
theorem c2_marker_written_before_extraction (d l t a : String) (env : ItemEnv)
    (ws : List WordData) (htext : truthyStr env.transcript_text = true)
    (halign : env.align = AlignOutcome.ok (AlignResponse.dictWithWordstamps ws)) :
    segment_audio_file d l t a env =
      (true, Effect.markerWrite (markerPath a) ::
        ((extractSentencesFFmpeg d l t a env.extractOk ws).2.map Effect.extract ++
          [Effect.csvAppend (saveSegmentsRows
            (extractSentencesFFmpeg d l t a env.extractOk ws).1)])) := by
  unfold segment_audio_file
  rw [halign]
  simp [htext, acceptedWordstamps]

/-- Witness for the amended C2, at `c2Env` (all ffmpeg calls fail). -/
theorem c2_marker_written_before_extraction_witness :
    segment_audio_file "d" "b1" "topic" "a.mp3" c2Env =
      (true, Effect.markerWrite (markerPath "a.mp3") ::
        ((extractSentencesFFmpeg "d" "b1" "topic" "a.mp3" c2Env.extractOk
            bonDiaWords).2.map Effect.extract ++
          [Effect.csvAppend (saveSegmentsRows
            (extractSentencesFFmpeg "d" "b1" "topic" "a.mp3" c2Env.extractOk
              bonDiaWords).1)])) :=
  c2_marker_written_before_extraction "d" "b1" "topic" "a.mp3" c2Env bonDiaWords
    (by decide) rfl

/-- Claim C8: among the `.mp3` files of a topic directory, the walker
selects only from the files whose lowercased name contains `"rapid"`
when any exists — in particular `["topic_lent.mp3", "topic_rapid.mp3"]`
yields `["topic_rapid.mp3"]` — and falls back to the non-rapid files
only when no rapid file exists. -/
theorem c8_rapid_preference :
    selectAudioFiles (["topic_lent.mp3", "topic_rapid.mp3"].filter
        (fun f => endsWithStr f ".mp3")) = ["topic_rapid.mp3"] ∧
    (∀ fs : List String, (∃ g ∈ fs, isRapidFile g = true) →
      ∀ f ∈ selectAudioFiles fs, isRapidFile f = true) ∧
    (∀ fs : List String, (∀ g ∈ fs, isRapidFile g = false) →
      selectAudioFiles fs = fs) := by
  refine ⟨by decide, ?_, ?_⟩
  · intro fs hex f hf
    obtain ⟨g, hg, hrg⟩ := hex
    have hne : fs.filter isRapidFile ≠ [] :=
      List.ne_nil_of_mem (List.mem_filter.mpr ⟨hg, hrg⟩)
    have hie : (fs.filter isRapidFile).isEmpty = false := by
      simpa [List.isEmpty_iff] using hne
    simp only [selectAudioFiles, hie, Bool.false_eq_true, if_false] at hf
    exact List.of_mem_filter hf
  · intro fs hall
    have h1 : fs.filter isRapidFile = [] := by
      rw [List.filter_eq_nil_iff]
      intro g hg
      simp [hall g hg]
    have h2 : fs.filter (fun f => !isRapidFile f) = fs := by
      rw [List.filter_eq_self]
      intro g hg
      simp [hall g hg]
    simp [selectAudioFiles, h1, h2]

/-- Witness for C8: the rapid-only conjunct at a mixed concrete list
and the fallback conjunct at a rapid-free concrete list. -/
theorem c8_rapid_preference_witness :
    isRapidFile "a_rapid.mp3" = true ∧
    selectAudioFiles ["x.mp3"] = ["x.mp3"] :=
  ⟨c8_rapid_preference.2.1 ["a_rapid.mp3", "b.mp3"]
      ⟨"a_rapid.mp3", by decide, by decide⟩ "a_rapid.mp3" (by decide),
   c8_rapid_preference.2.2 ["x.mp3"] (by decide)⟩

/-- Claim C9: a work item's failure is contained: `segment_audio_file`
returns a failure flag — `false` on a missing transcript, on an
alignment service error, and on an unrecognized alignment-response
shape — and the walker continues with the next entry whenever an entry
is skipped or fails, never aborting the batch. -/
theorem c9_failure_containment :
    (∀ (d l t a : String) (env : ItemEnv),
      truthyStr env.transcript_text = false →
      (truthyStr env.transcript_path && env.transcript_path_exists) = false →
      segment_audio_file d l t a env = (false, [])) ∧
    (∀ (d l t a : String) (env : ItemEnv),
      env.align = AlignOutcome.serviceError →
      (segment_audio_file d l t a env).1 = false) ∧
    (∀ (d l t a : String) (env : ItemEnv),
      env.align = AlignOutcome.ok AlignResponse.otherShape →
      (segment_audio_file d l t a env).1 = false) ∧
    (∀ (dd : String) (e : TopicEntry) (rest : List TopicEntry)
      (limit : Bool) (count : Nat),
      scanTopicStep dd e ≠ some true →
      processDirectoryScanLoop dd limit count (e :: rest) =
        processDirectoryScanLoop dd limit count rest) := by
  refine ⟨?_, ?_, ?_, ?_⟩
  · intro d l t a env h1 h2
    unfold segment_audio_file
    simp [h1, h2]
  · intro d l t a env h
    unfold segment_audio_file
    rw [h]
    by_cases h1 : truthyStr env.transcript_text = true
    · simp [h1]
    · by_cases h2 : (truthyStr env.transcript_path &&
          env.transcript_path_exists) = true
      · simp [h1, h2]
      · simp [h1, h2]
  · intro d l t a env h
    unfold segment_audio_file
    rw [h]
    by_cases h1 : truthyStr env.transcript_text = true
    · simp [h1, acceptedWordstamps]
    · by_cases h2 : (truthyStr env.transcript_path &&
          env.transcript_path_exists) = true
      · simp [h1, h2, acceptedWordstamps]
      · simp [h1, h2]
  · intro dd e rest limit count hne
    cases hstep : scanTopicStep dd e with
    | none => simp [processDirectoryScanLoop, hstep]
    | some b =>
      cases b with
      | false => simp [processDirectoryScanLoop, hstep]
      | true => exact absurd hstep hne

/-- Witness for C9: a service-error item returns `false`, and the walker
over `[failingEntry, okEntry]` equals the walker over `[okEntry]`. -/
theorem c9_failure_containment_witness :
    (segment_audio_file "d" "b1" "topic" "a.mp3" svcErrEnv).1 = false ∧
    processDirectoryScanLoop "d" true 0 [failingEntry, okEntry] =
      processDirectoryScanLoop "d" true 0 [okEntry] :=
  ⟨c9_failure_containment.2.1 "d" "b1" "topic" "a.mp3" svcErrEnv rfl,
   c9_failure_containment.2.2.2 "d" failingEntry [okEntry] true 0
     (by rw [(by with_unfolding_all rfl :
         scanTopicStep "d" failingEntry = some false)]; simp)⟩

/-! ### Further lemmas for the `clean_transcript` claims -/

theorem not_mem_append_cons {c x : Char} {p X : List Char} (hp : c ∉ p)
    (hx : c ≠ x) (hX : c ∉ X) : c ∉ (p ++ x :: X) := by
  intro hmem
  rcases List.mem_append.mp hmem with h | h
  · exact hp h
  · rcases List.mem_cons.mp h with h | h
    · exact hx h
    · exact hX h

theorem dropWhile_append_all {p : Char → Bool} :
    ∀ (L r : List Char), (∀ x ∈ L, p x = true) →
      List.dropWhile p (L ++ r) = List.dropWhile p r := by
  intro L
  induction L with
  | nil => intro r _; rfl
  | cons c cs ih =>
    intro r h
    have hc := h c (by simp)
    simp only [List.cons_append, List.dropWhile, hc]
    exact ih r (fun x hx => h x (by simp [hx]))

/-- With no newline left, greedy `.*` eats everything and `$` matches
at the end of the string. -/
theorem dollarTail_of_no_nl (L : List Char) (hL : '\n' ∉ L) :
    dollarTail L = some [] := by
  have h : L.dropWhile (fun c => decide (c ≠ '\n')) = [] := by
    rw [List.dropWhile_eq_nil_iff]
    intro x hx
    simp only [decide_eq_true_eq]
    exact fun hxn => hL (hxn ▸ hx)
  unfold dollarTail
  rw [h]
  simp

/-- With a newline before a nonempty remainder, `$` cannot match. -/
theorem dollarTail_mid_nl (L M : List Char) (hL : '\n' ∉ L) (hM : M ≠ []) :
    dollarTail (L ++ '\n' :: M) = none := by
  have h : (L ++ '\n' :: M).dropWhile (fun c => decide (c ≠ '\n')) = '\n' :: M := by
    rw [dropWhile_append_all L ('\n' :: M) ?_]
    · simp [List.dropWhile]
    · intro x hx
      simp only [decide_eq_true_eq]
      exact fun hxn => hL (hxn ▸ hx)
  unfold dollarTail
  rw [h, if_neg]
  simp [hM]

theorem isPrefixOf_append_self (l r : List Char) : l.isPrefixOf (l ++ r) = true := by
  induction l with
  | nil => simp [List.isPrefixOf]
  | cons c cs ih => simp [List.isPrefixOf, ih]

/-- Case-insensitive prefix succeeds on a case-variant of the label. -/
theorem ciPrefixOf_append_of_eqLower :
    ∀ (l b : List Char), l.map Char.toLower = b.map Char.toLower →
      ∀ r, ciPrefixOf l (b ++ r) = true := by
  intro l
  induction l with
  | nil => intro b _ r; rfl
  | cons c cs ih =>
    intro b h r
    cases b with
    | nil => simp at h
    | cons x xs =>
      simp only [List.map_cons, List.cons.injEq] at h
      simp [ciPrefixOf, h.1, ih xs h.2]

/-- `\nText:.*$` matches when `Text:` heads the final line. -/
theorem matchTextAt_fires (L : List Char) (hL : '\n' ∉ L) :
    matchTextAt ('\n' :: ("Text:".data ++ L)) = some [] := by
  have h1 : ("Text:".data).isPrefixOf ("Text:".data ++ L) = true :=
    isPrefixOf_append_self _ _
  have h2 : ("Text:".data ++ L).drop 5 = L := by
    rw [show (5 : Nat) = ("Text:".data).length from by decide]
    exact List.drop_left _ _
  simp [matchTextAt, h1, h2, dollarTail_of_no_nl L hL]

/-- `\n\s*Author:.*$` (`IGNORECASE`) matches an upper-case `AUTHOR:`
final line. -/
theorem matchAuthor_upper_fires (L : List Char) (hL : '\n' ∉ L) :
    matchLabelAt "Author:".data ('\n' :: ("AUTHOR:".data ++ L)) = some [] := by
  have hb : ("AUTHOR:".data ++ L).dropWhile Char.isWhitespace =
      "AUTHOR:".data ++ L := by
    rw [show ("AUTHOR:".data ++ L) = 'A' :: ("UTHOR:".data ++ L) from by
      rw [show "AUTHOR:".data = 'A' :: "UTHOR:".data from by decide]; rfl]
    rw [List.dropWhile_cons_of_neg]
    simp
  have hdrop : ("AUTHOR:".data ++ L).drop ("Author:".data).length = L := by
    rw [show ("Author:".data).length = ("AUTHOR:".data).length from by decide]
    exact List.drop_left _ _
  simp [matchLabelAt, hb, hdrop, dollarTail_of_no_nl L hL]
  exact ciPrefixOf_append_of_eqLower ['A', 'u', 't', 'h', 'o', 'r', ':']
    ['A', 'U', 'T', 'H', 'O', 'R', ':'] (by decide) L

/-- `\nText:.*$` cannot match when another line follows the label line. -/
theorem matchTextAt_mid (L M : List Char) (hL : '\n' ∉ L) (hM : M ≠ []) :
    matchTextAt ('\n' :: (("Text:".data ++ L) ++ '\n' :: M)) = none := by
  have h1 : ("Text:".data).isPrefixOf (("Text:".data ++ L) ++ '\n' :: M) = true := by
    rw [List.append_assoc]
    exact isPrefixOf_append_self _ _
  have h2 : (("Text:".data ++ L) ++ '\n' :: M).drop 5 = L ++ '\n' :: M := by
    rw [List.append_assoc, show (5 : Nat) = ("Text:".data).length from by decide]
    exact List.drop_left _ _
  simp [matchTextAt, h1, h2, dollarTail_mid_nl L M hL hM]

theorem matchTextAt_none_of_not_pref (M : List Char)
    (h : ("Text:".data).isPrefixOf M = false) :
    matchTextAt ('\n' :: M) = none := by
  simp [matchTextAt, h]

theorem matchLabelAt_none_of_not_pref (label : List Char) (M : List Char)
    (h : ciPrefixOf label (M.dropWhile Char.isWhitespace) = false) :
    matchLabelAt label ('\n' :: M) = none := by
  simp [matchLabelAt, h]

theorem isPrefixOf_cons_false (c x : Char) (p s : List Char)
    (h : (c == x) = false) : List.isPrefixOf (c :: p) (x :: s) = false := by
  simp [List.isPrefixOf, h]

theorem ciPrefixOf_cons_false (c x : Char) (p s : List Char)
    (h : (c.toLower == x.toLower) = false) :
    ciPrefixOf (c :: p) (x :: s) = false := by
  simp [ciPrefixOf, h]

/-- `\nText:.*$` cannot match when the line does not start with `T`. -/
theorem matchTextAt_none_head_ne (x : Char) (s : List Char)
    (hx : ('T' == x) = false) : matchTextAt ('\n' :: (x :: s)) = none := by
  have h : ("Text:".data).isPrefixOf (x :: s) = false := by
    rw [show "Text:".data = 'T' :: "ext:".data from by decide]
    exact isPrefixOf_cons_false 'T' x _ s hx
  simp [matchTextAt, h]

/-- `\n\s*LABEL.*$` cannot match when the line starts with a
non-whitespace character that case-insensitively differs from the
label's first character. -/
theorem matchLabelAt_none_head (label : List Char) (c0 : Char)
    (lrest : List Char) (hlab : label = c0 :: lrest) (x : Char) (s : List Char)
    (hxws : Char.isWhitespace x = false)
    (hx : (c0.toLower == x.toLower) = false) :
    matchLabelAt label ('\n' :: (x :: s)) = none := by
  have hdw : (x :: s).dropWhile Char.isWhitespace = x :: s :=
    List.dropWhile_cons_of_neg (by simp [hxws])
  have h : ciPrefixOf label ((x :: s).dropWhile Char.isWhitespace) = false := by
    rw [hdw, hlab]
    exact ciPrefixOf_cons_false c0 x lrest s hx
  simp [matchLabelAt, h]

/-- Claim C4 (counterexample): the claim says the label is matched
case-insensitively and that removal runs from the label line to the end
of the text even when further lines follow, which on
`"Hola\ntext: abc\ndef"` would yield `"Hola"`.  The code removes
nothing here: the `Text:` pattern is case-sensitive (no `IGNORECASE`
flag on that `re.sub`) and, without `MULTILINE`/`DOTALL`, `\nText:.*$`
can only match a final line, so the result keeps the label text. -/
theorem c4_counterexample :
    clean_transcript "Hola\ntext: abc\ndef" = "Hola text: abc def" ∧
    clean_transcript "Hola\ntext: abc\ndef" ≠ "Hola" := by
  exact ⟨by decide, by decide⟩

/-- Claim C4 (amended): `normalize` removes a trailing metadata portion
only when the label line is the *final* line of the text: a final line
starting with `Text:` matched case-sensitively (first conjunct), or a
final line starting with `Author:`/`Source:` matched case-insensitively
(second conjunct, shown for `AUTHOR:`), is removed from the preceding
newline to the end.  A lowercase `text:` label is not removed (third
conjunct) and a label line followed by further lines is not removed
(fourth conjunct) — in both cases the newlines are merely collapsed to
spaces.  In all cases line breaks become single spaces, whitespace runs
collapse, and the result is trimmed. -/
theorem c4_label_removal_final_line_only :
    (∀ p L : List Char, '\n' ∉ p → '\n' ∉ L →
      cleanTranscriptL (p ++ '\n' :: ("Text:".data ++ L)) = cleanTranscriptL p) ∧
    (∀ p L : List Char, '\n' ∉ p → '\n' ∉ L →
      cleanTranscriptL (p ++ '\n' :: ("AUTHOR:".data ++ L)) = cleanTranscriptL p) ∧
    (∀ p L : List Char, '\n' ∉ p → '\n' ∉ L →
      cleanTranscriptL (p ++ '\n' :: ("text:".data ++ L)) =
        cleanTranscriptL (p ++ ' ' :: ("text:".data ++ L))) ∧
    (∀ p L M : List Char, '\n' ∉ p → '\n' ∉ L → '\n' ∉ M → M ≠ [] →
      ("Text:".data).isPrefixOf M = false →
      ciPrefixOf "Author:".data (M.dropWhile Char.isWhitespace) = false →
      ciPrefixOf "Source:".data (M.dropWhile Char.isWhitespace) = false →
      cleanTranscriptL (p ++ '\n' :: (("Text:".data ++ L) ++ '\n' :: M)) =
        cleanTranscriptL (p ++ ' ' :: (("Text:".data ++ L) ++ ' ' :: M))) := by
  refine ⟨?_, ?_, ?_, ?_⟩
  · intro p L hp hL
    unfold cleanTranscriptL
    rw [reSubToEnd_append_of_no_head matchTextAt matchTextAt_no_head p _ hp,
      reSubToEnd_cons_some matchTextAt '\n' _ _ (matchTextAt_fires L hL),
      List.append_nil,
      reSubToEnd_of_no_nl matchTextAt matchTextAt_no_head p hp]
  · intro p L hp hL
    have hY : '\n' ∉ ("UTHOR:".data ++ L) := by
      intro hmem
      rcases List.mem_append.mp hmem with h | h
      · exact absurd h (by decide)
      · exact hL h
    have he : "AUTHOR:".data ++ L = 'A' :: ("UTHOR:".data ++ L) := by
      rw [show "AUTHOR:".data = 'A' :: "UTHOR:".data from by decide]
      rfl
    have hX : '\n' ∉ ("AUTHOR:".data ++ L) := by
      rw [he]
      intro hmem
      rcases List.mem_cons.mp hmem with h | h
      · exact absurd h (by decide)
      · exact hY h
    have n1 : matchTextAt ('\n' :: ("AUTHOR:".data ++ L)) = none := by
      rw [he]
      exact matchTextAt_none_head_ne 'A' _ (by decide)
    unfold cleanTranscriptL
    rw [reSub_single_nl matchTextAt matchTextAt_no_head p _ hp hX n1,
      reSubToEnd_append_of_no_head (matchLabelAt "Author:".data)
        (matchLabelAt_no_head _) p _ hp,
      reSubToEnd_cons_some (matchLabelAt "Author:".data) '\n' _ _
        (matchAuthor_upper_fires L hL),
      List.append_nil,
      reSubToEnd_of_no_nl matchTextAt matchTextAt_no_head p hp,
      reSubToEnd_of_no_nl (matchLabelAt "Author:".data) (matchLabelAt_no_head _)
        p hp]
  · intro p L hp hL
    have hY : '\n' ∉ ("ext:".data ++ L) := by
      intro hmem
      rcases List.mem_append.mp hmem with h | h
      · exact absurd h (by decide)
      · exact hL h
    have he : "text:".data ++ L = 't' :: ("ext:".data ++ L) := by
      rw [show "text:".data = 't' :: "ext:".data from by decide]
      rfl
    rw [he]
    have hX : '\n' ∉ ('t' :: ("ext:".data ++ L)) := by
      intro hmem
      rcases List.mem_cons.mp hmem with h | h
      · exact absurd h (by decide)
      · exact hY h
    have hrhs : '\n' ∉ (p ++ ' ' :: ('t' :: ("ext:".data ++ L))) :=
      not_mem_append_cons hp (by decide) hX
    unfold cleanTranscriptL
    rw [reSub_single_nl matchTextAt matchTextAt_no_head p _ hp hX
        (matchTextAt_none_head_ne 't' _ (by decide)),
      reSub_single_nl (matchLabelAt "Author:".data) (matchLabelAt_no_head _) p _
        hp hX (matchLabelAt_none_head _ 'A' "uthor:".data (by decide) 't' _
          (by decide) (by decide)),
      reSub_single_nl (matchLabelAt "Source:".data) (matchLabelAt_no_head _) p _
        hp hX (matchLabelAt_none_head _ 'S' "ource:".data (by decide) 't' _
          (by decide) (by decide)),
      reSubToEnd_of_no_nl matchTextAt matchTextAt_no_head _ hrhs,
      reSubToEnd_of_no_nl (matchLabelAt "Author:".data) (matchLabelAt_no_head _)
        _ hrhs,
      reSubToEnd_of_no_nl (matchLabelAt "Source:".data) (matchLabelAt_no_head _)
        _ hrhs]
    have hnl : nlToSpace (p ++ '\n' :: ('t' :: ("ext:".data ++ L))) =
        nlToSpace (p ++ ' ' :: ('t' :: ("ext:".data ++ L))) := by
      simp [nlToSpace]
    rw [hnl]
  · intro p L M hp hL hMnl hMne hTM hAM hSM
    have hTL : '\n' ∉ ("Text:".data ++ L) := by
      intro hmem
      rcases List.mem_append.mp hmem with h | h
      · exact absurd h (by decide)
      · exact hL h
    have hsh : ("Text:".data ++ L) ++ '\n' :: M =
        'T' :: (("ext:".data ++ L) ++ '\n' :: M) := by
      rw [show "Text:".data = 'T' :: "ext:".data from by decide]
      rfl
    have n1t : matchTextAt ('\n' :: (("Text:".data ++ L) ++ '\n' :: M)) = none :=
      matchTextAt_mid L M hL hMne
    have n1a : matchLabelAt "Author:".data
        ('\n' :: (("Text:".data ++ L) ++ '\n' :: M)) = none := by
      rw [hsh]
      exact matchLabelAt_none_head _ 'A' "uthor:".data (by decide) 'T' _
        (by decide) (by decide)
    have n1s : matchLabelAt "Source:".data
        ('\n' :: (("Text:".data ++ L) ++ '\n' :: M)) = none := by
      rw [hsh]
      exact matchLabelAt_none_head _ 'S' "ource:".data (by decide) 'T' _
        (by decide) (by decide)
    have n2t : matchTextAt ('\n' :: M) = none :=
      matchTextAt_none_of_not_pref M hTM
    have n2a : matchLabelAt "Author:".data ('\n' :: M) = none :=
      matchLabelAt_none_of_not_pref _ M hAM
    have n2s : matchLabelAt "Source:".data ('\n' :: M) = none :=
      matchLabelAt_none_of_not_pref _ M hSM
    have hrhs : '\n' ∉ (p ++ ' ' :: (("Text:".data ++ L) ++ ' ' :: M)) :=
      not_mem_append_cons hp (by decide)
        (not_mem_append_cons hTL (by decide) hMnl)
    unfold cleanTranscriptL
    rw [reSub_double_nl matchTextAt matchTextAt_no_head p _ M hp hTL hMnl
        n1t n2t,
      reSub_double_nl (matchLabelAt "Author:".data) (matchLabelAt_no_head _)
        p _ M hp hTL hMnl n1a n2a,
      reSub_double_nl (matchLabelAt "Source:".data) (matchLabelAt_no_head _)
        p _ M hp hTL hMnl n1s n2s,
      reSubToEnd_of_no_nl matchTextAt matchTextAt_no_head _ hrhs,
      reSubToEnd_of_no_nl (matchLabelAt "Author:".data) (matchLabelAt_no_head _)
        _ hrhs,
      reSubToEnd_of_no_nl (matchLabelAt "Source:".data) (matchLabelAt_no_head _)
        _ hrhs]
    have hnl : nlToSpace (p ++ '\n' :: (("Text:".data ++ L) ++ '\n' :: M)) =
        nlToSpace (p ++ ' ' :: (("Text:".data ++ L) ++ ' ' :: M)) := by
      simp [nlToSpace]
    rw [hnl]

/-- Witness for the amended C4: the final-line removal at
`"Hola" / "Text: x"`, and the no-removal case at
`"Hola" / "Text: x" / "mes"`. -/
theorem c4_label_removal_final_line_only_witness :
    cleanTranscriptL ("Hola".data ++ '\n' :: ("Text:".data ++ " x".data)) =
      cleanTranscriptL "Hola".data ∧
    cleanTranscriptL ("Hola".data ++ '\n' ::
        (("Text:".data ++ " x".data) ++ '\n' :: "mes".data)) =
      cleanTranscriptL ("Hola".data ++ ' ' ::
        (("Text:".data ++ " x".data) ++ ' ' :: "mes".data)) :=
  ⟨c4_label_removal_final_line_only.1 "Hola".data " x".data
      (by decide) (by decide),
   c4_label_removal_final_line_only.2.2.2 "Hola".data " x".data "mes".data
      (by decide) (by decide) (by decide) (by decide) (by decide) (by decide)
      (by decide)⟩

end Gencat
